import Mathlib

/-!
Shallow embedding of the service fleet orchestrator
(`test/startservers.py` and `test/helpers.py` of the boulder test harness
vendored in this repository), together with proofs about its behaviour.

Conventions of the embedding:
* A Python `subprocess.Popen` handle is a `Proc`: its command string, pid,
  and the current result of `poll()` (`none` while running, `some code`
  once exited).
* The module-level globals `processes` and `challSrvProcess` form a
  `FleetState`.
* Fallible OS primitives (`send_signal`, `wait`) are given outcome oracles;
  a raised exception is modelled as an aborted computation (`Bool` success
  flag, or `Except`), with the global state at the point of the raise.
* Side effects that matter to the claims (signals sent, waits performed)
  are collected as explicit event lists.
-/

namespace StartServers

/-- A spawned OS process as the orchestrator sees it: `cmd` is the command
string attached by `run()` (`p.cmd`), `pid` the OS pid, and `poll` the
result of `Popen.poll()`: `none` while the process is alive, `some code`
once it has exited with `code`. -/
structure Proc where
  cmd : String
  pid : Nat
  poll : Option Int
  deriving Repr, DecidableEq

/-- The orchestrator's module-level mutable state: the `processes` list
(insertion order = start order) and the separately tracked
`challSrvProcess` sidecar. -/
structure FleetState where
  processes : List Proc
  challSrvProcess : Option Proc
  deriving Repr, DecidableEq

/-! ## check()

```python
def check():
    global processes
    busted = []
    stillok = []
    for p in processes:
        if p.poll() is None:
            stillok.append(p)
        else:
            busted.append(p)
    if busted:
        print("...")
        for p in busted:
            print("\t'%s' with pid %d exited %d" % (p.cmd, p.pid, p.returncode))
    processes = stillok
    return not busted
```
-/

/-- The single pass of `check()` over `processes`, building `busted` and
`stillok` in iteration order. -/
def checkSplit : List Proc → List Proc × List Proc
  | [] => ([], [])
  | p :: ps =>
    let r := checkSplit ps
    if p.poll.isNone then (r.1, p :: r.2) else (p :: r.1, r.2)

/-- The lines printed for the dead processes: `(p.cmd, p.pid, p.returncode)`
for each entry of `busted`. -/
def checkReport (busted : List Proc) : List (String × Nat × Int) :=
  busted.map (fun p => (p.cmd, p.pid, p.poll.getD 0))

/-- `check()`: returns the printed report, the boolean result
(`not busted`), and the updated global state (`processes = stillok`;
`challSrvProcess` is never touched). -/
def check (st : FleetState) : List (String × Nat × Int) × Bool × FleetState :=
  let r := checkSplit st.processes
  (checkReport r.1, r.1.isEmpty, { st with processes := r.2 })

/-! ## run() environment construction

```python
def run(cmd, fakeclock):
    e = os.environ.copy()
    e.setdefault("GORACE", "halt_on_error=1")
    if fakeclock:
        e.setdefault("FAKECLOCK", fakeclock)
    p = subprocess.Popen(cmd, env=e)
```
-/

/-- An environment: a finite-support map from variable names to values. -/
def Env : Type := String → Option String

/-- Python `dict.setdefault k v`: binds `k` to `v` only when `k` is absent. -/
def Env.setdefault (e : Env) (k v : String) : Env :=
  fun x => if x = k then some ((e k).getD v) else e x

/-- The child environment built by `run(cmd, fakeclock)`: a copy of the
ambient environment with `GORACE` defaulted to `"halt_on_error=1"` and,
when `fakeclock` is truthy (present and non-empty), `FAKECLOCK` defaulted
to it. -/
def runEnv (ambient : Env) (fakeclock : Option String) : Env :=
  let e := ambient.setdefault "GORACE" "halt_on_error=1"
  match fakeclock with
  | some fc => if fc = "" then e else e.setdefault "FAKECLOCK" fc
  | none => e

/-! ## stop() / stopChallSrv()

```python
def stop():
    global processes
    for p in reversed(processes):
        if p.poll() is None:
            p.send_signal(signal.SIGTERM)
            p.wait()
    processes = []
    stopChallSrv()

def stopChallSrv():
    global challSrvProcess
    if challSrvProcess is None:
        return
    if challSrvProcess.poll() is None:
        challSrvProcess.send_signal(signal.SIGTERM)
        challSrvProcess.wait()
    challSrvProcess = None
```

`send_signal` / `wait` are OS calls that can raise; the oracle below says,
per pid, whether each raises. Note that the Python code contains no
`try/except` here: a raise propagates out of `stop()` before
`processes = []` is executed.
-/

/-- Which OS-level shutdown primitives raise: `sigFail pid` means
`send_signal(SIGTERM)` on that pid raises, `waitFail pid` means `wait()`
on it raises. -/
structure StopOracle where
  sigFail : Nat → Bool
  waitFail : Nat → Bool

/-- Shutdown side effects, in the order they happen. -/
inductive Ev
  | sigterm (pid : Nat)
  | waited (pid : Nat)
  deriving Repr, DecidableEq

/-- The `for p in reversed(processes)` loop of `stop()`, applied to an
already-reversed list: skips exited entries, signals then waits on live
ones. Returns the events performed and whether the loop ran to completion
(`false` = an OS call raised and the exception propagated). -/
def stopLoop (o : StopOracle) : List Proc → List Ev × Bool
  | [] => ([], true)
  | p :: ps =>
    if p.poll.isNone then
      if o.sigFail p.pid then ([], false)
      else if o.waitFail p.pid then ([.sigterm p.pid], false)
      else
        let r := stopLoop o ps
        (.sigterm p.pid :: .waited p.pid :: r.1, r.2)
    else stopLoop o ps

/-- `stopChallSrv()`: no-op when no sidecar is tracked; otherwise signals
and waits when it is still alive, then clears `challSrvProcess`. A raise
leaves `challSrvProcess` still set. -/
def stopChallSrv (o : StopOracle) (st : FleetState) : List Ev × Bool × FleetState :=
  match st.challSrvProcess with
  | none => ([], true, st)
  | some p =>
    if p.poll.isNone then
      if o.sigFail p.pid then ([], false, st)
      else if o.waitFail p.pid then ([.sigterm p.pid], false, st)
      else ([.sigterm p.pid, .waited p.pid], true, { st with challSrvProcess := none })
    else ([], true, { st with challSrvProcess := none })

/-- `stop()`: runs the reverse-order loop; only if it completes does it
clear `processes` and call `stopChallSrv()`. Returns the events, whether
the whole call completed without a raise, and the resulting global
state. -/
def stop (o : StopOracle) (st : FleetState) : List Ev × Bool × FleetState :=
  let r := stopLoop o st.processes.reverse
  if r.2 then
    let r2 := stopChallSrv o { st with processes := [] }
    (r.1 ++ r2.1, r2.2.1, r2.2.2)
  else (r.1, false, st)

/-! ## startChallSrv()

```python
def startChallSrv():
    global challSrvProcess
    if challSrvProcess is not None:
        raise(Exception("startChallSrv called more than once"))
    challSrvProcess = run([...], None)
    if not waitport(8055, ...):
        return False
```

The spawn itself and the management-port wait are abstracted into the
`Proc` handle passed in; the `raise` when a sidecar is already tracked is
the observable branch. -/

/-- `startChallSrv()`: raises (returns `false` as success flag, state
unchanged) when `challSrvProcess` is already set; otherwise tracks the
newly spawned sidecar process. -/
def startChallSrv (spawned : Proc) (st : FleetState) : Bool × FleetState :=
  match st.challSrvProcess with
  | some _ => (false, st)
  | none => (true, { st with challSrvProcess := some spawned })

/-! ## _service_toposort

```python
def _service_toposort(services):
    ready = set([s for s in services if not s.deps])
    blocked = set(services) - ready
    done = set()
    while ready:
        service = ready.pop()
        yield service
        done.add(service.name)
        new = set([s for s in blocked if all([d in done for d in s.deps])])
        ready |= new
        blocked -= new
    if blocked:
        print("WARNING: services with unsatisfied dependencies:")
        for s in blocked:
            print(s.name, ":", s.deps)
        raise(Exception("Unable to satisfy service dependencies"))
```

Python iterates sets in an unspecified order; the embedding is the
deterministic refinement that keeps the sets as lists in declaration
order and lets `ready.pop()` take the head. A `deps` value of `None` in
the Python table is embedded as the empty list (both are falsy and have
no elements). -/

/-- A `Service` descriptor row: its unique `name` and the names it
depends on (`deps`). The command/port/gRPC columns do not participate in
scheduling. -/
structure Service where
  name : String
  deps : List String
  deriving Repr, DecidableEq

/-- `all([d in done for d in s.deps])`: every dependency name resolved. -/
def depsDone (done : List String) (s : Service) : Bool :=
  s.deps.all (fun d => done.contains d)

/-- The `while ready:` loop of `_service_toposort`, with explicit fuel
(any fuel ≥ `ready.length + blocked.length` is enough, since each
iteration consumes one element of the combined pool). Returns the emitted
sequence and the final `blocked` set. -/
def toposortGo : Nat → List Service → List Service → List String → List Service × List Service
  | 0, _, blocked, _ => ([], blocked)
  | _ + 1, [], blocked, _ => ([], blocked)
  | fuel + 1, r :: rest, blocked, done =>
    let done' := r.name :: done
    let new := blocked.filter (depsDone done')
    let blocked' := blocked.filter (fun s => !(depsDone done' s))
    let rec' := toposortGo fuel (rest ++ new) blocked' done'
    (r :: rec'.1, rec'.2)

/-- The initial split and loop of `_service_toposort`: `ready` starts as
the services with falsy `deps`, `blocked` as the rest, `done` empty. The
combined pool size is `svcs.length`, which therefore suffices as fuel. -/
def toposortRun (svcs : List Service) : List Service × List Service :=
  toposortGo svcs.length (svcs.filter (fun s => s.deps.isEmpty))
    (svcs.filter (fun s => !s.deps.isEmpty)) []

/-- `_service_toposort(services)`, run to completion: either the emitted
order, or the unsatisfiable-dependency failure carrying what the code
prints for each stuck service — its name and its `deps` value. -/
def serviceToposort (svcs : List Service) :
    Except (List (String × List String)) (List Service) :=
  if (toposortRun svcs).2.isEmpty then .ok (toposortRun svcs).1
  else .error ((toposortRun svcs).2.map (fun s => (s.name, s.deps)))

/-! ### Dependency-graph notions used to specify the scheduler -/

/-- `DepEdge svcs a b`: the table declares a service named `a` whose
`deps` lists `b`. -/
def DepEdge (svcs : List Service) (a b : String) : Prop :=
  ∃ s, s ∈ svcs ∧ s.name = a ∧ b ∈ s.deps

/-- `Resolvable svcs n`: the name `n` can be reached by repeatedly
starting services all of whose dependency names have already been
reached — the least fixed point of one round of "remove every descriptor
whose dependencies are all resolved". -/
inductive Resolvable (svcs : List Service) : String → Prop
  | step (s : Service) (hmem : s ∈ svcs) (h : ∀ d ∈ s.deps, Resolvable svcs d) :
      Resolvable svcs s.name

/-- Descriptor names are pairwise distinct. -/
def NamesNodup (svcs : List Service) : Prop := (svcs.map Service.name).Nodup

/-- Every name in a `deps` list names a declared descriptor. -/
def DepsDeclared (svcs : List Service) : Prop :=
  ∀ s ∈ svcs, ∀ d ∈ s.deps, ∃ t, t ∈ svcs ∧ t.name = d

/-- The dependency relation is acyclic: it admits a topological ranking
(for a finite relation this is the existence of a DAG ordering). -/
def Acyclic (svcs : List Service) : Prop :=
  ∃ rank : String → Nat, ∀ s ∈ svcs, ∀ d ∈ s.deps, rank d < rank s.name

/-- Some name depends on itself through one or more declared edges. -/
def HasCycle (svcs : List Service) : Prop :=
  ∃ a, Relation.TransGen (DepEdge svcs) a a

/-- Some declared descriptor lists a dependency name that no descriptor
bears. -/
def MissingDep (svcs : List Service) : Prop :=
  ∃ s ∈ svcs, ∃ d ∈ s.deps, ∀ t ∈ svcs, t.name ≠ d

/-- A sequence of services respects dependencies, counting the names in
`done` as already resolved: each service's deps are among `done` plus the
names emitted before it. -/
def OrderedFrom (done : List String) : List Service → Prop
  | [] => True
  | s :: rest => (∀ d ∈ s.deps, d ∈ done) ∧ OrderedFrom (s.name :: done) rest

/-! ## waitport (helpers.py)

```python
def waitport(port, prog, perTickCheck=None):
    for _ in range(1000):
        try:
            time.sleep(0.1)
            if perTickCheck is not None and not perTickCheck():
                return False
            s = socket.socket(socket.AF_INET, socket.SOCK_STREAM)
            s.connect(('localhost', port))
            s.close()
            return True
        except socket.error as e:
            if e.errno == errno.ECONNREFUSED:
                print("Waiting for debug port %d (%s)" % (port, prog))
            else:
                raise
    raise(Exception("timed out waiting for debug port %d (%s)" % (port, prog)))
```

The outside world is an oracle: `conn i` is the outcome of the TCP
connect on attempt `i`, and the optional `perTickCheck` is a predicate on
the attempt number. Time is counted in sleeps: each attempt performs
exactly one `time.sleep(0.1)` before anything else. -/

/-- Outcome of one `s.connect(('localhost', port))`. -/
inductive ConnectOutcome
  | refused
  | otherError
  | success
  deriving Repr, DecidableEq

/-- How a `waitport` call ends: returned `True`, returned `False` because
`perTickCheck` said to abort, re-raised a non-ECONNREFUSED socket error,
or raised the timeout exception after exhausting all attempts. -/
inductive WaitResult
  | ok
  | aborted
  | connectRaise
  | timedOut
  deriving Repr, DecidableEq

/-- Does the current attempt abort: `perTickCheck is not None and not
perTickCheck()`. -/
def abortNow (ptc : Option (Nat → Bool)) (i : Nat) : Bool :=
  match ptc with
  | some f => !(f i)
  | none => false

/-- The `for _ in range(1000)` loop of `waitport`, from attempt `i` with
`fuel` attempts remaining. Second component: total sleeps performed when
the call ends (each attempt sleeps once, first thing). -/
def waitportGo (conn : Nat → ConnectOutcome) (ptc : Option (Nat → Bool)) :
    Nat → Nat → WaitResult × Nat
  | 0, i => (.timedOut, i)
  | fuel + 1, i =>
    if abortNow ptc i then (.aborted, i + 1)
    else
      match conn i with
      | .success => (.ok, i + 1)
      | .otherError => (.connectRaise, i + 1)
      | .refused => waitportGo conn ptc fuel (i + 1)

/-- `waitport(port, prog, perTickCheck)`: up to 1000 attempts. -/
def waitport (conn : Nat → ConnectOutcome) (ptc : Option (Nat → Bool)) :
    WaitResult × Nat :=
  waitportGo conn ptc 1000 0

/-! ## start()

```python
def start(fakeclock):
    signal.signal(signal.SIGTERM, lambda _, __: stop())
    signal.signal(signal.SIGINT, lambda _, __: stop())
    startChallSrv()
    for service in _service_toposort(SERVICES):
        print("Starting service", service.name)
        try:
            global processes
            p = run(service.cmd, fakeclock)
            processes.append(p)
            if service.grpc_addr is not None:
                waithealth(' '.join(p.args), service.grpc_addr)
            else:
                if not waitport(service.debug_port, ' '.join(p.args), perTickCheck=check):
                    return False
        except Exception as e:
            print("Error starting service %s: %s" % (service.name, e))
            return False
    print("All servers running. Hit ^C to kill.")
    return True
```

Per-descriptor primitives are abstracted into an outcome oracle:
`run()` may raise before anything is appended (`spawnRaise`); the
readiness gate may raise (`gateRaise` — a `waithealth` failure, or a
non-refused socket error from `waitport`; caught by the `except`); or,
in the `waitport` branch only, return falsy (`gateFalse`). `waitport`
returns `False` solely through `perTickCheck=check`: exactly when the
module-level `check()` has just pruned the processes it found dead from
the whole global `processes` list (initial entries and newly spawned
alike) and returned `False`. The `gateFalse` step therefore performs
`check()`'s prune — `Proc.poll` is each process's poll status at that
failing tick. Earlier ticks' `check()` calls returned `True` and pruned
nothing, so successful and raising gates leave the list untouched. In a
real execution the pruned set at the failing tick is non-empty
(otherwise `check()` returns `True` and the wait continues); the
theorems below do not rely on that and hold for all oracle assignments.

`_service_toposort` is a generator consumed lazily by the `for`
statement: services are yielded one at a time, and the
unsatisfiable-dependencies `raise` fires only when the loop asks for the
next service after the resolvable ones are exhausted with `blocked`
non-empty. That raise happens in the `for` machinery, outside the `try`,
and so propagates out of `start()`; but a failure among the emitted
services returns `False` normally before the generator ever reaches its
raise. `spawnProc` names the `Proc` handle a successful `run()` of each
descriptor yields. -/

/-- Outcome of spawning one descriptor and running its readiness gate. -/
inductive SvcOutcome
  | spawnRaise
  | gateOk
  | gateFalse
  | gateRaise
  deriving Repr, DecidableEq

/-- The `for service in _service_toposort(SERVICES)` loop body of
`start()`, threading the global `processes` list `acc`: a successful
spawn appends; a falsy port gate (`gateFalse`) additionally performs the
prune its `perTickCheck=check` call made — keeping exactly the entries
still polling `None` — and the loop stops at the first failure. Returns
the final `processes` value and the boolean `start()` returns when the
loop ends the call. -/
def startGo (out : String → SvcOutcome) (spawnProc : String → Proc) :
    List Service → List Proc → List Proc × Bool
  | [], acc => (acc, true)
  | s :: rest, acc =>
    match out s.name with
    | .spawnRaise => (acc, false)
    | .gateRaise => (acc ++ [spawnProc s.name], false)
    | .gateFalse => ((checkSplit (acc ++ [spawnProc s.name])).2, false)
    | .gateOk => startGo out spawnProc rest (acc ++ [spawnProc s.name])

/-- `start(fakeclock)` over an arbitrary descriptor table: starts the
sidecar first (a raise there — already running, or its spawn/wait
raising — propagates, `.error`), then runs the loop over the services
the scheduler generator emits. Only when every emitted service succeeded
and `blocked` is non-empty does the generator's raise fire and propagate
(`.error`); otherwise the call returns the loop's boolean and the new
global state. -/
def start (out : String → SvcOutcome) (spawnProc : String → Proc) (sidecar : Proc)
    (svcs : List Service) (st : FleetState) : Except Unit (Bool × FleetState) :=
  match startChallSrv sidecar st with
  | (false, _) => .error ()
  | (true, st1) =>
    let r := startGo out spawnProc (toposortRun svcs).1 st1.processes
    if r.2 then
      if (toposortRun svcs).2.isEmpty then .ok (true, { st1 with processes := r.1 })
      else .error ()
    else .ok (false, { st1 with processes := r.1 })

/-! ## Scheduler lemmas -/

theorem depsDone_iff (done : List String) (s : Service) :
    depsDone done s = true ↔ ∀ d ∈ s.deps, d ∈ done := by
  simp [depsDone, List.all_eq_true]

theorem length_filter_partition {α : Type} (p : α → Bool) (l : List α) :
    (l.filter p).length + (l.filter (fun a => !(p a))).length = l.length := by
  induction l with
  | nil => rfl
  | cons x xs ih =>
    cases hx : p x <;> simp [List.filter_cons, hx] <;> omega

theorem toposortGo_perm :
    ∀ (fuel : Nat) (ready blocked : List Service) (done : List String),
      ready.length + blocked.length ≤ fuel →
      ((toposortGo fuel ready blocked done).1 ++ (toposortGo fuel ready blocked done).2).Perm
        (ready ++ blocked) := by
  intro fuel
  induction fuel with
  | zero =>
    intro ready blocked done h
    have h1 : ready = [] := by
      cases ready with
      | nil => rfl
      | cons a l => simp [List.length_cons] at h
    subst h1
    simp [toposortGo]
  | succ fuel ih =>
    intro ready blocked done h
    cases ready with
    | nil => simp [toposortGo]
    | cons r rest =>
      have hpart := length_filter_partition (depsDone (r.name :: done)) blocked
      have hlen : (rest ++ blocked.filter (depsDone (r.name :: done))).length +
          (blocked.filter (fun s => !(depsDone (r.name :: done) s))).length ≤ fuel := by
        simp only [List.length_append]
        simp only [List.length_cons] at h
        omega
      have hperm := ih (rest ++ blocked.filter (depsDone (r.name :: done)))
        (blocked.filter (fun s => !(depsDone (r.name :: done) s))) (r.name :: done) hlen
      have hpartperm : (blocked.filter (depsDone (r.name :: done)) ++
          blocked.filter (fun s => !(depsDone (r.name :: done) s))).Perm blocked :=
        List.filter_append_perm _ blocked
      simp only [toposortGo, List.cons_append]
      refine List.Perm.cons r ?_
      refine hperm.trans ?_
      rw [List.append_assoc]
      exact List.Perm.append_left rest hpartperm

theorem toposortGo_spec (svcs : List Service) :
    ∀ (fuel : Nat) (ready blocked : List Service) (done : List String),
      ready.length + blocked.length ≤ fuel →
      (∀ s ∈ ready, s ∈ svcs) →
      (∀ s ∈ blocked, s ∈ svcs) →
      (∀ s ∈ ready, ∀ d ∈ s.deps, d ∈ done) →
      (∀ s ∈ blocked, ∃ d ∈ s.deps, ¬ d ∈ done) →
      (∀ n ∈ done, Resolvable svcs n) →
      OrderedFrom done (toposortGo fuel ready blocked done).1 ∧
      (∀ s ∈ (toposortGo fuel ready blocked done).1, Resolvable svcs s.name) ∧
      (∀ s ∈ (toposortGo fuel ready blocked done).2,
        ∃ d ∈ s.deps, ¬ d ∈ (toposortGo fuel ready blocked done).1.map Service.name ∧
          ¬ d ∈ done) := by
  intro fuel
  induction fuel with
  | zero =>
    intro ready blocked done h hr hb hrd hbd hdn
    have h1 : ready = [] := by
      cases ready with
      | nil => rfl
      | cons a l => simp [List.length_cons] at h
    subst h1
    refine ⟨trivial, by simp [toposortGo], ?_⟩
    intro s hs
    obtain ⟨d, hd, hnd⟩ := hbd s (by simpa [toposortGo] using hs)
    exact ⟨d, hd, by simp [toposortGo], hnd⟩
  | succ fuel ih =>
    intro ready blocked done h hr hb hrd hbd hdn
    cases ready with
    | nil =>
      refine ⟨trivial, by simp [toposortGo], ?_⟩
      intro s hs
      obtain ⟨d, hd, hnd⟩ := hbd s (by simpa [toposortGo] using hs)
      exact ⟨d, hd, by simp [toposortGo], hnd⟩
    | cons r rest =>
      have hres_r : Resolvable svcs r.name :=
        .step r (hr r (List.mem_cons_self r rest))
          (fun d hd => hdn d (hrd r (List.mem_cons_self r rest) d hd))
      have hlen : (rest ++ blocked.filter (depsDone (r.name :: done))).length +
          (blocked.filter (fun s => !(depsDone (r.name :: done) s))).length ≤ fuel := by
        have hpart := length_filter_partition (depsDone (r.name :: done)) blocked
        simp only [List.length_append]
        simp only [List.length_cons] at h
        omega
      have hr' : ∀ s ∈ rest ++ blocked.filter (depsDone (r.name :: done)), s ∈ svcs := by
        intro s hs
        rcases List.mem_append.1 hs with hs | hs
        · exact hr s (List.mem_cons_of_mem r hs)
        · exact hb s (List.mem_filter.1 hs).1
      have hb' : ∀ s ∈ blocked.filter (fun s => !(depsDone (r.name :: done) s)), s ∈ svcs :=
        fun s hs => hb s (List.mem_filter.1 hs).1
      have hrd' : ∀ s ∈ rest ++ blocked.filter (depsDone (r.name :: done)),
          ∀ d ∈ s.deps, d ∈ r.name :: done := by
        intro s hs d hd
        rcases List.mem_append.1 hs with hs | hs
        · exact List.mem_cons_of_mem _ (hrd s (List.mem_cons_of_mem r hs) d hd)
        · exact (depsDone_iff _ s).1 (List.mem_filter.1 hs).2 d hd
      have hbd' : ∀ s ∈ blocked.filter (fun s => !(depsDone (r.name :: done) s)),
          ∃ d ∈ s.deps, ¬ d ∈ r.name :: done := by
        intro s hs
        have hf := (List.mem_filter.1 hs).2
        simp only [Bool.not_eq_true'] at hf
        have : ¬ ∀ d ∈ s.deps, d ∈ r.name :: done := by
          intro hall
          rw [(depsDone_iff _ s).2 hall] at hf
          exact Bool.true_eq_false.mp hf
        push_neg at this
        exact this
      have hdn' : ∀ n ∈ r.name :: done, Resolvable svcs n := by
        intro n hn
        rcases List.mem_cons.1 hn with rfl | hn
        · exact hres_r
        · exact hdn n hn
      obtain ⟨ih1, ih2, ih3⟩ := ih (rest ++ blocked.filter (depsDone (r.name :: done)))
        (blocked.filter (fun s => !(depsDone (r.name :: done) s))) (r.name :: done)
        hlen hr' hb' hrd' hbd' hdn'
      refine ⟨?_, ?_, ?_⟩
      · simp only [toposortGo]
        exact ⟨fun d hd => hrd r (List.mem_cons_self r rest) d hd, ih1⟩
      · simp only [toposortGo]
        intro s hs
        rcases List.mem_cons.1 hs with rfl | hs
        · exact hres_r
        · exact ih2 s hs
      · simp only [toposortGo]
        intro s hs
        obtain ⟨d, hd, hout, hdone⟩ := ih3 s hs
        have hdr : d ≠ r.name := fun hdr => hdone (hdr ▸ List.mem_cons_self r.name done)
        refine ⟨d, hd, ?_, fun hmem => hdone (List.mem_cons_of_mem _ hmem)⟩
        simp only [List.map_cons, List.mem_cons]
        rintro (hdr' | hmem)
        · exact hdr hdr'
        · exact hout hmem

theorem toposortRun_perm (svcs : List Service) :
    ((toposortRun svcs).1 ++ (toposortRun svcs).2).Perm svcs := by
  have hlen : (svcs.filter (fun s => s.deps.isEmpty)).length +
      (svcs.filter (fun s => !s.deps.isEmpty)).length ≤ svcs.length := by
    have := length_filter_partition (fun s : Service => s.deps.isEmpty) svcs
    omega
  have h := toposortGo_perm svcs.length (svcs.filter (fun s => s.deps.isEmpty))
    (svcs.filter (fun s => !s.deps.isEmpty)) [] hlen
  exact (h.trans (List.filter_append_perm _ svcs))

theorem toposortRun_spec (svcs : List Service) :
    OrderedFrom [] (toposortRun svcs).1 ∧
    (∀ s ∈ (toposortRun svcs).1, Resolvable svcs s.name) ∧
    (∀ s ∈ (toposortRun svcs).2,
      ∃ d ∈ s.deps, ¬ d ∈ (toposortRun svcs).1.map Service.name) := by
  have hlen : (svcs.filter (fun s => s.deps.isEmpty)).length +
      (svcs.filter (fun s => !s.deps.isEmpty)).length ≤ svcs.length := by
    have := length_filter_partition (fun s : Service => s.deps.isEmpty) svcs
    omega
  have h := toposortGo_spec svcs svcs.length (svcs.filter (fun s => s.deps.isEmpty))
    (svcs.filter (fun s => !s.deps.isEmpty)) [] hlen
    (fun s hs => (List.mem_filter.1 hs).1) (fun s hs => (List.mem_filter.1 hs).1)
    (fun s hs d hd => by
      have := (List.mem_filter.1 hs).2
      simp only [List.isEmpty_iff] at this
      rw [this] at hd
      cases hd)
    (fun s hs => by
      have hne := (List.mem_filter.1 hs).2
      simp only [Bool.not_eq_true', List.isEmpty_eq_false_iff_exists_mem] at hne
      obtain ⟨d, hd⟩ := hne
      exact ⟨d, hd, by simp⟩)
    (fun n hn => absurd hn (List.not_mem_nil n))
  obtain ⟨h1, h2, h3⟩ := h
  exact ⟨h1, h2, fun s hs => by
    obtain ⟨d, hd, hout, _⟩ := h3 s hs
    exact ⟨d, hd, hout⟩⟩

/-- Every resolvable name is emitted by the scheduler's loop. -/
theorem resolvable_emitted (svcs : List Service) :
    ∀ n, Resolvable svcs n → n ∈ (toposortRun svcs).1.map Service.name := by
  intro n hn
  induction hn with
  | step s hmem h ihd =>
    have hperm := toposortRun_perm svcs
    have hs : s ∈ (toposortRun svcs).1 ++ (toposortRun svcs).2 := hperm.mem_iff.2 hmem
    rcases List.mem_append.1 hs with hs | hs
    · exact List.mem_map.2 ⟨s, hs, rfl⟩
    · obtain ⟨d, hd, hout⟩ := (toposortRun_spec svcs).2.2 s hs
      exact absurd (ihd d hd) hout

/-- A topological ranking makes every declared name resolvable. -/
theorem resolvable_of_rank (svcs : List Service) (rank : String → Nat)
    (hrank : ∀ s ∈ svcs, ∀ d ∈ s.deps, rank d < rank s.name)
    (hdecl : DepsDeclared svcs) :
    ∀ s ∈ svcs, Resolvable svcs s.name := by
  have key : ∀ N s, s ∈ svcs → rank s.name < N → Resolvable svcs s.name := by
    intro N
    induction N with
    | zero => intro s _ hlt; omega
    | succ n ihn =>
      intro s hs hlt
      refine .step s hs (fun d hd => ?_)
      obtain ⟨t, ht, rfl⟩ := hdecl s hs d hd
      exact ihn t ht (by have := hrank s hs t.name hd; omega)
  exact fun s hs => key (rank s.name + 1) s hs (Nat.lt_succ_self _)

/-- Sanity: a topological ranking rules out declared dependency cycles. -/
theorem acyclic_no_cycle (svcs : List Service) (h : Acyclic svcs) : ¬ HasCycle svcs := by
  obtain ⟨rank, hrank⟩ := h
  rintro ⟨a, hcyc⟩
  have hstep : ∀ x y, DepEdge svcs x y → rank y < rank x := by
    rintro x y ⟨s, hs, rfl, hy⟩
    exact hrank s hs y hy
  have hlt : ∀ x y, Relation.TransGen (DepEdge svcs) x y → rank y < rank x := by
    intro x y hxy
    induction hxy with
    | single h => exact hstep _ _ h
    | tail _ h ih => exact lt_trans (hstep _ _ h) ih
  exact absurd (hlt a a hcyc) (lt_irrefl _)

/-- With pairwise-distinct names, a name determines its descriptor. -/
theorem name_inj (svcs : List Service) (hnd : NamesNodup svcs) :
    ∀ s ∈ svcs, ∀ t ∈ svcs, s.name = t.name → s = t :=
  fun s hs t ht h => List.inj_on_of_nodup_map hnd hs ht h

/-- Unfolds `OrderedFrom` to positions: each dependency of the `i`-th
emitted service is already done or named by an earlier position. -/
theorem orderedFrom_get :
    ∀ (out : List Service) (done : List String), OrderedFrom done out →
      ∀ i : Fin out.length, ∀ d ∈ (out.get i).deps,
        d ∈ done ∨ ∃ j : Fin out.length, j.val < i.val ∧ (out.get j).name = d := by
  intro out
  induction out with
  | nil => intro done _ i; exact absurd i.2 (by simp)
  | cons s rest ih =>
    intro done hord i d hd
    obtain ⟨h1, h2⟩ := hord
    match i with
    | ⟨0, _⟩ => exact Or.inl (h1 d hd)
    | ⟨k + 1, hk⟩ =>
      have hk' : k < rest.length := by simpa [List.length_cons] using hk
      have := ih (s.name :: done) h2 ⟨k, hk'⟩ d hd
      rcases this with hmem | ⟨j, hj, hname⟩
      · rcases List.mem_cons.1 hmem with rfl | hmem
        · exact Or.inr ⟨⟨0, by simp⟩, Nat.succ_pos k, rfl⟩
        · exact Or.inl hmem
      · exact Or.inr ⟨⟨j.val + 1, by simpa [List.length_cons] using Nat.succ_lt_succ j.2⟩,
          Nat.succ_lt_succ hj, hname⟩

/-- Position form of a direct dependency: if the service at position `i`
of the emitted order declares the name at position `j` among its deps,
then `j` comes first. -/
theorem depEdge_get_lt (svcs out : List Service) (hperm : out.Perm svcs)
    (hnd : NamesNodup svcs) (hord : OrderedFrom [] out) :
    ∀ i j : Fin out.length,
      DepEdge svcs (out.get i).name (out.get j).name → j.val < i.val := by
  have hndout : (out.map Service.name).Nodup := ((hperm.map _).nodup_iff).2 hnd
  have houtnodup : out.Nodup := List.Nodup.of_map Service.name hndout
  have hinj : ∀ a b : Fin out.length, (out.get a).name = (out.get b).name → a = b := by
    intro a b hab
    have h1 : out.get a ∈ out := out.get_mem _ _
    have h2 : out.get b ∈ out := out.get_mem _ _
    exact (houtnodup.get_inj_iff).1 (List.inj_on_of_nodup_map hndout h1 h2 hab)
  intro i j hedge
  obtain ⟨s, hs, hname, hdep⟩ := hedge
  obtain ⟨k, hk⟩ := List.mem_iff_get.1 (hperm.mem_iff.2 hs)
  have hki : k = i := hinj k i (by rw [hk]; exact hname)
  subst hki
  have hdep' : (out.get j).name ∈ (out.get k).deps := by rw [hk]; exact hdep
  rcases orderedFrom_get out [] hord k ((out.get j).name) hdep' with
    hmem | ⟨j', hj', hnamej⟩
  · cases hmem
  · have hj : j' = j := hinj j' j hnamej
    omega

/-- Position form of a transitive dependency. -/
theorem transGen_get_lt (svcs out : List Service) (hperm : out.Perm svcs)
    (hnd : NamesNodup svcs) (hord : OrderedFrom [] out) :
    ∀ i j : Fin out.length,
      Relation.TransGen (DepEdge svcs) (out.get i).name (out.get j).name → j.val < i.val := by
  intro i j h
  suffices key : ∀ c, Relation.TransGen (DepEdge svcs) (out.get i).name c →
      ∀ jj : Fin out.length, c = (out.get jj).name → jj.val < i.val from key _ h j rfl
  intro c hc
  induction hc with
  | single hedge =>
    intro jj hjj
    subst hjj
    exact depEdge_get_lt svcs out hperm hnd hord i jj hedge
  | tail hprev hedge ih =>
    intro jj hjj
    subst hjj
    obtain ⟨s, hs, rfl, hdep⟩ := hedge
    obtain ⟨k, hk⟩ := List.mem_iff_get.1 (hperm.mem_iff.2 hs)
    have hki := ih k (by rw [hk])
    have hjk := depEdge_get_lt svcs out hperm hnd hord k jj
      ⟨s, hs, by rw [hk], hdep⟩
    omega

/-- C3: for every descriptor table with pairwise-distinct names, all
dependency names declared, and an acyclic dependency relation, the
scheduler succeeds with an output that is a permutation of the table
(each descriptor exactly once) and places every descriptor strictly
after every descriptor it transitively depends on. -/
theorem scheduler_toposort_correct (svcs : List Service)
    (hnd : NamesNodup svcs) (hdecl : DepsDeclared svcs) (hacy : Acyclic svcs) :
    ∃ out, serviceToposort svcs = .ok out ∧ svcs.Perm out ∧
      ∀ i j : Fin out.length,
        Relation.TransGen (DepEdge svcs) (out.get i).name (out.get j).name →
          j.val < i.val := by
  obtain ⟨rank, hrank⟩ := hacy
  have hres := resolvable_of_rank svcs rank hrank hdecl
  have hfb : (toposortRun svcs).2 = [] := by
    by_contra hne
    obtain ⟨s, hs⟩ := List.exists_mem_of_ne_nil _ hne
    obtain ⟨d, hd, hout⟩ := (toposortRun_spec svcs).2.2 s hs
    have hssvcs : s ∈ svcs :=
      (toposortRun_perm svcs).mem_iff.1 (List.mem_append.2 (Or.inr hs))
    obtain ⟨t, ht, rfl⟩ := hdecl s hssvcs d hd
    exact hout (resolvable_emitted svcs t.name (hres t ht))
  have hperm : (toposortRun svcs).1.Perm svcs := by
    have h := toposortRun_perm svcs
    rwa [hfb, List.append_nil] at h
  refine ⟨(toposortRun svcs).1, ?_, hperm.symm, ?_⟩
  · simp [serviceToposort, hfb]
  · exact transGen_get_lt svcs _ hperm hnd (toposortRun_spec svcs).1

/-- Witness for C3 at a concrete two-service table. -/
theorem scheduler_toposort_correct_witness :
    ∃ out, serviceToposort [⟨"a", []⟩, ⟨"b", ["a"]⟩] = .ok out ∧
      ([⟨"a", []⟩, ⟨"b", ["a"]⟩] : List Service).Perm out ∧
      ∀ i j : Fin out.length,
        Relation.TransGen (DepEdge [⟨"a", []⟩, ⟨"b", ["a"]⟩])
            (out.get i).name (out.get j).name → j.val < i.val :=
  scheduler_toposort_correct [⟨"a", []⟩, ⟨"b", ["a"]⟩]
    (by unfold NamesNodup; decide) (by unfold DepsDeclared; decide)
    ⟨fun n => if n = "b" then 1 else 0, by decide⟩

/-- Inversion for `Resolvable`. -/
theorem resolvable_inv (svcs : List Service) {n : String} (h : Resolvable svcs n) :
    ∃ s, s ∈ svcs ∧ s.name = n ∧ ∀ d ∈ s.deps, Resolvable svcs d := by
  cases h with
  | step s hmem hdeps => exact ⟨s, hmem, rfl, hdeps⟩

/-- A resolvable name cannot lie on a declared dependency cycle. -/
theorem resolvable_no_cycle (svcs : List Service) (hnd : NamesNodup svcs) :
    ∀ n, Resolvable svcs n → ¬ Relation.TransGen (DepEdge svcs) n n := by
  intro n hn
  induction hn with
  | step s hmem h ih =>
    intro hcyc
    obtain ⟨c, hedge, htail⟩ := (Relation.TransGen.head'_iff).1 hcyc
    obtain ⟨t, ht, htn, hdep⟩ := hedge
    have hts : t = s := name_inj svcs hnd t ht s hmem htn
    subst hts
    exact ih c hdep (Relation.TransGen.tail' htail ⟨t, ht, rfl, hdep⟩)

/-- A cycle or an undeclared dependency name yields a declared descriptor
whose name is not resolvable. -/
theorem unresolvable_of_bad (svcs : List Service) (hnd : NamesNodup svcs)
    (hbad : HasCycle svcs ∨ MissingDep svcs) :
    ∃ s, s ∈ svcs ∧ ¬ Resolvable svcs s.name := by
  rcases hbad with ⟨a, hcyc⟩ | ⟨s, hs, d, hd, hnone⟩
  · have hsrc : ∃ t, t ∈ svcs ∧ t.name = a := by
      obtain ⟨c, hedge, _⟩ := (Relation.TransGen.head'_iff).1 hcyc
      obtain ⟨t, ht, htn, _⟩ := hedge
      exact ⟨t, ht, htn⟩
    obtain ⟨t, ht, rfl⟩ := hsrc
    exact ⟨t, ht, fun hres => resolvable_no_cycle svcs hnd t.name hres hcyc⟩
  · refine ⟨s, hs, fun hres => ?_⟩
    obtain ⟨t, ht, htn, hdeps⟩ := resolvable_inv svcs hres
    have hts : t = s := name_inj svcs hnd t ht s hs htn
    subst hts
    obtain ⟨u, hu, hun, _⟩ := resolvable_inv svcs (hdeps d hd)
    exact hnone u hu hun

/-- C4 (amended): for a table with pairwise-distinct names containing a
cycle or an undeclared dependency name, the scheduler fails, the reported
entries all are `(name, deps)` rows of declared descriptors, and a
declared descriptor is reported stuck exactly when its name is not
resolvable by repeatedly removing descriptors whose dependencies are all
resolved. Each stuck descriptor is reported with its full declared
`deps` list. -/
theorem scheduler_toposort_stuck (svcs : List Service)
    (hnd : NamesNodup svcs) (hbad : HasCycle svcs ∨ MissingDep svcs) :
    ∃ E, serviceToposort svcs = .error E ∧
      (∀ e ∈ E, ∃ s, s ∈ svcs ∧ e = (s.name, s.deps)) ∧
      (∀ s ∈ svcs, ((s.name, s.deps) ∈ E ↔ ¬ Resolvable svcs s.name)) := by
  obtain ⟨s0, hs0, hunres⟩ := unresolvable_of_bad svcs hnd hbad
  have hs0fb : s0 ∈ (toposortRun svcs).2 := by
    rcases List.mem_append.1 ((toposortRun_perm svcs).mem_iff.2 hs0) with h | h
    · exact absurd ((toposortRun_spec svcs).2.1 s0 h) hunres
    · exact h
  have hfbne : (toposortRun svcs).2.isEmpty = false := by
    cases hfb : (toposortRun svcs).2 with
    | nil => rw [hfb] at hs0fb; cases hs0fb
    | cons a l => rfl
  refine ⟨(toposortRun svcs).2.map (fun s => (s.name, s.deps)), ?_, ?_, ?_⟩
  · simp [serviceToposort, hfbne]
  · intro e he
    obtain ⟨t, ht, rfl⟩ := List.mem_map.1 he
    exact ⟨t, (toposortRun_perm svcs).mem_iff.1 (List.mem_append.2 (Or.inr ht)), rfl⟩
  · intro s hs
    constructor
    · intro hmem hres
      obtain ⟨t, htfb, hte⟩ := List.mem_map.1 hmem
      have htname : t.name = s.name := congrArg Prod.fst hte
      have htsvcs : t ∈ svcs :=
        (toposortRun_perm svcs).mem_iff.1 (List.mem_append.2 (Or.inr htfb))
      have hts : t = s := name_inj svcs hnd t htsvcs s hs htname
      subst hts
      obtain ⟨u, hu, hun⟩ := List.mem_map.1 (resolvable_emitted svcs t.name hres)
      have husvcs : u ∈ svcs :=
        (toposortRun_perm svcs).mem_iff.1 (List.mem_append.2 (Or.inl hu))
      have hut : u = t := name_inj svcs hnd u husvcs t htsvcs hun
      subst hut
      have hnodup : ((toposortRun svcs).1 ++ (toposortRun svcs).2).Nodup :=
        ((toposortRun_perm svcs).nodup_iff).2 (List.Nodup.of_map _ hnd)
      exact (List.disjoint_of_nodup_append hnodup) hu htfb
    · intro hnres
      have hsfb : s ∈ (toposortRun svcs).2 := by
        rcases List.mem_append.1 ((toposortRun_perm svcs).mem_iff.2 hs) with h | h
        · exact absurd ((toposortRun_spec svcs).2.1 s h) hnres
        · exact h
      exact List.mem_map.2 ⟨s, hsfb, rfl⟩

/-- Witness for C4 (amended) at a one-service table whose single `deps`
entry names no declared descriptor. -/
theorem scheduler_toposort_stuck_witness :
    ∃ E, serviceToposort [⟨"x", ["y"]⟩] = .error E ∧
      (∀ e ∈ E, ∃ s, s ∈ [(⟨"x", ["y"]⟩ : Service)] ∧ e = (s.name, s.deps)) ∧
      (∀ s ∈ [(⟨"x", ["y"]⟩ : Service)],
        ((s.name, s.deps) ∈ E ↔ ¬ Resolvable [⟨"x", ["y"]⟩] s.name)) :=
  scheduler_toposort_stuck [⟨"x", ["y"]⟩] (by unfold NamesNodup; decide)
    (Or.inr (by unfold MissingDep; decide))

/-- Counterexample to C4 as stated: the failure report is not limited to
unmet dependency names. In the table `A; B deps [A, C]; C deps [B]`, the
scheduler reports stuck `B` together with its full `deps` list
`[A, C]` — which contains `A`, a dependency that is resolvable (indeed
already emitted), hence met, not unmet. -/
theorem toposort_reports_met_dep_cex :
    serviceToposort [⟨"A", []⟩, ⟨"B", ["A", "C"]⟩, ⟨"C", ["B"]⟩] =
      .error [("B", ["A", "C"]), ("C", ["B"])] ∧
    Resolvable [⟨"A", []⟩, ⟨"B", ["A", "C"]⟩, ⟨"C", ["B"]⟩] "A" ∧
    "A" ∈ (["A", "C"] : List String) := by
  refine ⟨by rfl, ?_, by decide⟩
  exact .step ⟨"A", []⟩ (by decide) (fun d hd => absurd hd (List.not_mem_nil d))

/-! ## check() lemmas -/

theorem checkSplit_eq (ps : List Proc) :
    checkSplit ps = (ps.filter (fun p => !p.poll.isNone), ps.filter (fun p => p.poll.isNone)) := by
  induction ps with
  | nil => rfl
  | cons p ps ih =>
    cases hp : p.poll <;> simp [checkSplit, List.filter_cons, hp, ih]

/-- Counterexample to C1 as stated: with one live and one exited tracked
process, `check()` finds a dead process yet returns `false`, not `true` —
the code returns `not busted`, i.e. true exactly when nothing died. -/
theorem check_returns_false_on_dead_cex :
    (check ⟨[⟨"p", 1, none⟩, ⟨"q", 2, some 1⟩], none⟩).2.1 = false ∧
    (⟨"q", 2, some 1⟩ : Proc) ∈
      (⟨[⟨"p", 1, none⟩, ⟨"q", 2, some 1⟩], none⟩ : FleetState).processes ∧
    (⟨"q", 2, some 1⟩ : Proc).poll ≠ none := by
  refine ⟨rfl, by decide, by decide⟩

/-- C1 (amended): after any fleet state, `check()` returns `false` exactly
when at least one tracked process was found dead (so `true` iff all are
alive); it removes every exited entry from the running list, keeping the
survivors in their original order; it reports each removed entry's
command string, pid and exit code; and it neither examines nor changes
the sidecar. -/
theorem check_spec (st : FleetState) :
    ((check st).2.1 = false ↔ ∃ p ∈ st.processes, p.poll ≠ none) ∧
    (check st).2.2.processes = st.processes.filter (fun p => p.poll.isNone) ∧
    (check st).1 =
      (st.processes.filter (fun p => !p.poll.isNone)).map
        (fun p => (p.cmd, p.pid, p.poll.getD 0)) ∧
    (check st).2.2.challSrvProcess = st.challSrvProcess := by
  refine ⟨?_, ?_, ?_, ?_⟩
  · simp only [check, checkSplit_eq, List.isEmpty_eq_false_iff_exists_mem]
    constructor
    · rintro ⟨p, hp⟩
      have hm := List.mem_filter.1 hp
      refine ⟨p, hm.1, fun hnone => ?_⟩
      have h2 := hm.2
      rw [hnone] at h2
      simp at h2
    · rintro ⟨p, hp, hdead⟩
      refine ⟨p, List.mem_filter.2 ⟨hp, ?_⟩⟩
      cases hpoll : p.poll with
      | none => exact absurd hpoll hdead
      | some c => simp [hpoll]
  · simp [check, checkSplit_eq]
  · simp [check, checkSplit_eq, checkReport]
  · simp [check]

/-! ## run() environment lemmas -/

/-- An ambient environment that already binds `GORACE`. -/
def ambientWithGorace : Env := fun k => if k = "GORACE" then some "foo" else none

/-- Counterexample to C9 as stated: `run()` uses `setdefault`, so when the
ambient environment already binds `GORACE`, the spawned child sees the
ambient value `"foo"`, not the configured race-detection toggle
`"halt_on_error=1"` — the configured values do not overlay the ambient
environment. -/
theorem runEnv_ambient_wins_cex :
    ambientWithGorace "GORACE" = some "foo" ∧
    runEnv ambientWithGorace (some "2020-01-01") "GORACE" = some "foo" ∧
    some "foo" ≠ (some "halt_on_error=1" : Option String) := by
  refine ⟨rfl, by decide, by decide⟩

/-- C9 (amended): `run()` builds the child environment from a copy of the
ambient environment, with the race-detection toggle and the supplied
clock override applied as defaults only: an ambient binding always wins;
`GORACE` becomes `"halt_on_error=1"` only when the ambient environment
does not bind it; `FAKECLOCK` becomes the supplied non-empty override
only when the ambient environment does not bind it; all other variables
are passed through unchanged. -/
theorem runEnv_spec (ambient : Env) (fc : Option String) :
    (∀ k v, ambient k = some v → runEnv ambient fc k = some v) ∧
    (ambient "GORACE" = none → runEnv ambient fc "GORACE" = some "halt_on_error=1") ∧
    (∀ s, fc = some s → s ≠ "" → ambient "FAKECLOCK" = none →
      runEnv ambient fc "FAKECLOCK" = some s) ∧
    (∀ k, k ≠ "GORACE" → k ≠ "FAKECLOCK" → runEnv ambient fc k = ambient k) := by
  have hsome : ∀ (e : Env) (k v x w : String), e x = some w →
      e.setdefault k v x = some w := by
    intro e k v x w h
    by_cases hx : x = k
    · subst hx; simp [Env.setdefault, h]
    · simp [Env.setdefault, hx, h]
  have hnone : ∀ (e : Env) (k v : String), e k = none →
      e.setdefault k v k = some v := by
    intro e k v h
    simp [Env.setdefault, h]
  have hother : ∀ (e : Env) (k v x : String), x ≠ k → e.setdefault k v x = e x := by
    intro e k v x hx
    simp [Env.setdefault, hx]
  have hrun : ∀ x, runEnv ambient fc x =
      match fc with
      | some s =>
        if s = "" then ambient.setdefault "GORACE" "halt_on_error=1" x
        else (ambient.setdefault "GORACE" "halt_on_error=1").setdefault "FAKECLOCK" s x
      | none => ambient.setdefault "GORACE" "halt_on_error=1" x := by
    intro x
    cases fc with
    | none => rfl
    | some s =>
      by_cases hs : s = "" <;> simp [runEnv, hs]
  refine ⟨?_, ?_, ?_, ?_⟩
  · intro k v hk
    rw [hrun k]
    cases fc with
    | none => exact hsome _ _ _ _ _ hk
    | some s =>
      by_cases hs : s = ""
      · simp only [if_pos hs]
        exact hsome _ _ _ _ _ hk
      · simp only [if_neg hs]
        exact hsome _ _ _ _ _ (hsome _ _ _ _ _ hk)
  · intro hg
    rw [hrun "GORACE"]
    cases fc with
    | none => exact hnone _ _ _ hg
    | some s =>
      by_cases hs : s = ""
      · simp only [if_pos hs]
        exact hnone _ _ _ hg
      · simp only [if_neg hs]
        rw [hother _ _ _ _ (by decide)]
        exact hnone _ _ _ hg
  · intro s hfc hs hfk
    subst hfc
    rw [hrun "FAKECLOCK"]
    simp only [if_neg hs]
    refine hnone _ _ _ ?_
    rw [hother _ _ _ _ (by decide)]
    exact hfk
  · intro k hkg hkf
    rw [hrun k]
    cases fc with
    | none => exact hother _ _ _ _ hkg
    | some s =>
      by_cases hs : s = ""
      · simp only [if_pos hs]
        exact hother _ _ _ _ hkg
      · simp only [if_neg hs]
        rw [hother _ _ _ _ hkf]
        exact hother _ _ _ _ hkg

/-- Witness for C9 (amended) at concrete environments. -/
theorem runEnv_spec_witness :
    runEnv ambientWithGorace (some "x") "GORACE" = some "foo" ∧
    runEnv (fun _ => none) (some "x") "GORACE" = some "halt_on_error=1" ∧
    runEnv (fun _ => none) (some "x") "FAKECLOCK" = some "x" ∧
    runEnv (fun _ => none) (some "x") "PATH" = none :=
  ⟨(runEnv_spec ambientWithGorace (some "x")).1 "GORACE" "foo" rfl,
   (runEnv_spec (fun _ => none) (some "x")).2.1 rfl,
   (runEnv_spec (fun _ => none) (some "x")).2.2.1 "x" rfl (by decide) rfl,
   (runEnv_spec (fun _ => none) (some "x")).2.2.2 "PATH" (by decide) (by decide)⟩

/-! ## stop()/sidecar lemmas -/

/-- The signal-then-wait event pairs for a list of processes, in order. -/
def sigtermWaits : List Proc → List Ev
  | [] => []
  | p :: ps => .sigterm p.pid :: .waited p.pid :: sigtermWaits ps

/-- The events `stop()` performs on the main fleet: the live entries, in
exact reverse append order, each signalled then awaited. -/
def fleetStopEvents (ps : List Proc) : List Ev :=
  sigtermWaits (ps.reverse.filter (fun p => p.poll.isNone))

/-- The events `stopChallSrv()` performs. -/
def sidecarStopEvents : Option Proc → List Ev
  | none => []
  | some p => if p.poll.isNone then [.sigterm p.pid, .waited p.pid] else []

theorem stopChallSrv_complete (o : StopOracle) (st : FleetState)
    (h : (stopChallSrv o st).2.1 = true) :
    (stopChallSrv o st).2.2 = { st with challSrvProcess := none } := by
  cases st with
  | mk ps cs =>
    cases cs with
    | none => rfl
    | some p =>
      by_cases hp : p.poll.isNone = true
      · by_cases hsig : o.sigFail p.pid = true
        · exfalso; simp [stopChallSrv, hp, hsig] at h
        · by_cases hw : o.waitFail p.pid = true
          · exfalso; simp [stopChallSrv, hp, hsig, hw] at h
          · simp [stopChallSrv, hp, hsig, hw]
      · simp [stopChallSrv, hp]

theorem stopChallSrv_abort (o : StopOracle) (st : FleetState)
    (h : (stopChallSrv o st).2.1 = false) :
    (stopChallSrv o st).2.2 = st := by
  cases st with
  | mk ps cs =>
    cases cs with
    | none => exact absurd h (by simp [stopChallSrv])
    | some p =>
      by_cases hp : p.poll.isNone = true
      · by_cases hsig : o.sigFail p.pid = true
        · simp [stopChallSrv, hp, hsig]
        · by_cases hw : o.waitFail p.pid = true
          · simp [stopChallSrv, hp, hsig, hw]
          · exfalso; simp [stopChallSrv, hp, hsig, hw] at h
      · exfalso; simp [stopChallSrv, hp] at h

theorem stopLoop_noFail (o : StopOracle)
    (hno : ∀ n, o.sigFail n = false ∧ o.waitFail n = false) :
    ∀ l, stopLoop o l = (sigtermWaits (l.filter (fun p => p.poll.isNone)), true) := by
  intro l
  induction l with
  | nil => rfl
  | cons p ps ih =>
    by_cases hp : p.poll.isNone = true
    · simp [stopLoop, hp, (hno p.pid).1, (hno p.pid).2, List.filter_cons, ih, sigtermWaits]
    · simp [stopLoop, hp, List.filter_cons, ih]

theorem stopChallSrv_noFail (o : StopOracle)
    (hno : ∀ n, o.sigFail n = false ∧ o.waitFail n = false) (st : FleetState) :
    stopChallSrv o st =
      (sidecarStopEvents st.challSrvProcess, true, { st with challSrvProcess := none }) := by
  cases st with
  | mk ps cs =>
    cases cs with
    | none => rfl
    | some p =>
      by_cases hp : p.poll.isNone = true
      · simp [stopChallSrv, sidecarStopEvents, hp, (hno p.pid).1, (hno p.pid).2]
      · simp [stopChallSrv, sidecarStopEvents, hp]

/-- C6: when no shutdown primitive fails, `stop()` signals and waits for
the tracked processes in the exact reverse of append order, skipping
entries whose process has already exited, and performs the sidecar stop
only after all main-fleet events. -/
theorem stop_reverse_order (o : StopOracle) (st : FleetState)
    (hno : ∀ n, o.sigFail n = false ∧ o.waitFail n = false) :
    stop o st = (fleetStopEvents st.processes ++ sidecarStopEvents st.challSrvProcess,
      true, (⟨[], none⟩ : FleetState)) := by
  cases st with
  | mk ps cs =>
    have hl := stopLoop_noFail o hno ps.reverse
    have hc := stopChallSrv_noFail o hno (⟨[], cs⟩ : FleetState)
    simp only [stop, fleetStopEvents]
    rw [hl, hc]
    simp

/-- Witness for C6 at a concrete fleet with a dead middle entry and a
live sidecar. -/
theorem stop_reverse_order_witness :
    stop ⟨fun _ => false, fun _ => false⟩
        ⟨[⟨"a", 1, none⟩, ⟨"b", 2, some 0⟩, ⟨"c", 3, none⟩], some ⟨"s", 9, none⟩⟩ =
      (fleetStopEvents [⟨"a", 1, none⟩, ⟨"b", 2, some 0⟩, ⟨"c", 3, none⟩] ++
        sidecarStopEvents (some ⟨"s", 9, none⟩), true, (⟨[], none⟩ : FleetState)) :=
  stop_reverse_order _ _ (fun _ => ⟨rfl, rfl⟩)

/-- C7: `stop()` is idempotent: after a completed call the running list
is empty and the sidecar cleared, and a second call — under any oracle —
performs no events and raises no error; `stop()` on an empty fleet is a
no-op, not an error. -/
theorem stop_idempotent (o o2 : StopOracle) (st : FleetState) :
    ((stop o st).2.1 = true →
      (stop o st).2.2 = (⟨[], none⟩ : FleetState) ∧
      stop o2 (stop o st).2.2 = ([], true, (stop o st).2.2)) ∧
    (st.processes = [] → st.challSrvProcess = none → stop o st = ([], true, st)) := by
  have key : ∀ (o' : StopOracle) (s : FleetState), s.processes = [] →
      s.challSrvProcess = none → stop o' s = ([], true, s) := by
    intro o' s h1 h2
    cases s with
    | mk ps cs =>
      simp only at h1 h2
      subst h1; subst h2
      rfl
  refine ⟨?_, key o st⟩
  intro hok
  cases hr : (stopLoop o st.processes.reverse).2 with
  | false =>
    exfalso
    have hfalse : (stop o st).2.1 = false := by simp [stop, hr]
    rw [hfalse] at hok
    cases hok
  | true =>
    have hstop2 : (stop o st).2.2 = (stopChallSrv o { st with processes := [] }).2.2 := by
      simp [stop, hr]
    have hok2 : (stopChallSrv o { st with processes := [] }).2.1 = true := by
      have h1 : (stop o st).2.1 = (stopChallSrv o { st with processes := [] }).2.1 := by
        simp [stop, hr]
      rw [h1] at hok
      exact hok
    have hcs := stopChallSrv_complete o _ hok2
    have hfinal : (stop o st).2.2 = (⟨[], none⟩ : FleetState) := by
      rw [hstop2, hcs]
    exact ⟨hfinal, by rw [hfinal]; exact key o2 ⟨[], none⟩ rfl rfl⟩

/-- Witness for C7 at a concrete fleet. -/
theorem stop_idempotent_witness :
    (stop ⟨fun _ => false, fun _ => false⟩
        ⟨[⟨"a", 1, none⟩], some ⟨"s", 9, some 0⟩⟩).2.2 = (⟨[], none⟩ : FleetState) ∧
    stop ⟨fun _ => true, fun _ => true⟩
        (stop ⟨fun _ => false, fun _ => false⟩ ⟨[⟨"a", 1, none⟩], some ⟨"s", 9, some 0⟩⟩).2.2 =
      ([], true,
        (stop ⟨fun _ => false, fun _ => false⟩ ⟨[⟨"a", 1, none⟩], some ⟨"s", 9, some 0⟩⟩).2.2) ∧
    stop ⟨fun _ => true, fun _ => true⟩ ⟨[], none⟩ = ([], true, (⟨[], none⟩ : FleetState)) := by
  refine ⟨?_, ?_, ?_⟩
  · exact ((stop_idempotent ⟨fun _ => false, fun _ => false⟩ ⟨fun _ => true, fun _ => true⟩
      ⟨[⟨"a", 1, none⟩], some ⟨"s", 9, some 0⟩⟩).1 (by decide)).1
  · exact ((stop_idempotent ⟨fun _ => false, fun _ => false⟩ ⟨fun _ => true, fun _ => true⟩
      ⟨[⟨"a", 1, none⟩], some ⟨"s", 9, some 0⟩⟩).1 (by decide)).2
  · exact (stop_idempotent ⟨fun _ => true, fun _ => true⟩ ⟨fun _ => true, fun _ => true⟩
      ⟨[], none⟩).2 rfl rfl

/-- C10: at most one sidecar is ever tracked (`challSrvProcess` is an
`Option`): `startChallSrv` while a sidecar is tracked raises and leaves
the tracked sidecar unchanged; `stopChallSrv` resets the tracked sidecar
to absent even when the sidecar process has already exited; whenever
`stopChallSrv` completes the sidecar is absent; and after it, with the
slot empty, `startChallSrv` succeeds again — so restarting requires an
intervening `stopChallSrv`. -/
theorem sidecar_exclusive (st : FleetState) (p q : Proc) (o : StopOracle) :
    (st.challSrvProcess = some p → startChallSrv q st = (false, st)) ∧
    (st.challSrvProcess = some p → p.poll ≠ none →
      stopChallSrv o st = ([], true, { st with challSrvProcess := none })) ∧
    ((stopChallSrv o st).2.1 = true → (stopChallSrv o st).2.2.challSrvProcess = none) ∧
    (st.challSrvProcess = none →
      startChallSrv q st = (true, { st with challSrvProcess := some q })) := by
  refine ⟨?_, ?_, ?_, ?_⟩
  · intro h
    cases st with
    | mk ps cs => cases h; rfl
  · intro h hp
    have hnone : p.poll.isNone = false := by
      cases hpoll : p.poll with
      | none => exact absurd hpoll hp
      | some c => rfl
    cases st with
    | mk ps cs =>
      cases h
      simp [stopChallSrv, hnone]
  · intro h
    rw [stopChallSrv_complete o st h]
  · intro h
    cases st with
    | mk ps cs => cases h; rfl

/-- Witness for C10 at a concrete state holding an exited sidecar. -/
theorem sidecar_exclusive_witness :
    startChallSrv ⟨"n", 7, none⟩ ⟨[], some ⟨"s", 9, some 0⟩⟩ =
      (false, ⟨[], some ⟨"s", 9, some 0⟩⟩) ∧
    stopChallSrv ⟨fun _ => true, fun _ => true⟩ ⟨[], some ⟨"s", 9, some 0⟩⟩ =
      ([], true, (⟨[], none⟩ : FleetState)) ∧
    startChallSrv ⟨"n", 7, none⟩ ⟨[], none⟩ =
      (true, ⟨[], some ⟨"n", 7, none⟩⟩) := by
  refine ⟨?_, ?_, ?_⟩
  · exact (sidecar_exclusive ⟨[], some ⟨"s", 9, some 0⟩⟩ ⟨"s", 9, some 0⟩ ⟨"n", 7, none⟩
      ⟨fun _ => true, fun _ => true⟩).1 rfl
  · exact (sidecar_exclusive ⟨[], some ⟨"s", 9, some 0⟩⟩ ⟨"s", 9, some 0⟩ ⟨"n", 7, none⟩
      ⟨fun _ => true, fun _ => true⟩).2.1 rfl (by decide)
  · exact (sidecar_exclusive ⟨[], none⟩ ⟨"s", 9, some 0⟩ ⟨"n", 7, none⟩
      ⟨fun _ => true, fun _ => true⟩).2.2.2 rfl

/-- Counterexample to C8 as stated: `stop()` has no `try/except` — with
two live processes where signalling the most recently appended one (pid
2, handled first) raises, the exception propagates: `stop()` does not
proceed to pid 1, does not clear the running list, and never stops the
sidecar, instead of logging and swallowing the error. -/
theorem stop_error_swallow_cex :
    stop ⟨fun n => n == 2, fun _ => false⟩
        ⟨[⟨"a", 1, none⟩, ⟨"b", 2, none⟩], some ⟨"s", 9, none⟩⟩ =
      ([], false, ⟨[⟨"a", 1, none⟩, ⟨"b", 2, none⟩], some ⟨"s", 9, none⟩⟩) ∧
    (⟨[⟨"a", 1, none⟩, ⟨"b", 2, none⟩], some ⟨"s", 9, none⟩⟩ : FleetState).processes ≠ [] ∧
    Ev.sigterm 1 ∉
      (stop ⟨fun n => n == 2, fun _ => false⟩
        ⟨[⟨"a", 1, none⟩, ⟨"b", 2, none⟩], some ⟨"s", 9, none⟩⟩).1 := by
  refine ⟨by decide, by decide, by decide⟩

/-- C8 (amended): a failure to signal or to wait during `stop()` is not
caught: the exception propagates. A failure in the main loop aborts
`stop()` with the running list uncleared and the sidecar untouched; in
every failing run the sidecar is left as it was; and the loop stops at
the first failing process, performing no events for the
earlier-appended remainder. -/
theorem stop_error_propagates (o : StopOracle) (st : FleetState) :
    ((stopLoop o st.processes.reverse).2 = false →
      (stop o st).2.1 = false ∧ (stop o st).2.2 = st) ∧
    ((stop o st).2.1 = false → (stop o st).2.2.challSrvProcess = st.challSrvProcess) ∧
    (∀ p ps, p.poll.isNone = true → o.sigFail p.pid = true →
      stopLoop o (p :: ps) = ([], false)) ∧
    (∀ p ps, p.poll.isNone = true → o.sigFail p.pid = false → o.waitFail p.pid = true →
      stopLoop o (p :: ps) = ([Ev.sigterm p.pid], false)) := by
  refine ⟨?_, ?_, ?_, ?_⟩
  · intro hr
    constructor <;> simp [stop, hr]
  · intro hfail
    cases hr : (stopLoop o st.processes.reverse).2 with
    | false => simp [stop, hr]
    | true =>
      have h1 : (stop o st).2.1 = (stopChallSrv o { st with processes := [] }).2.1 := by
        simp [stop, hr]
      have h2 : (stop o st).2.2 = (stopChallSrv o { st with processes := [] }).2.2 := by
        simp [stop, hr]
      rw [h1] at hfail
      rw [h2, stopChallSrv_abort o _ hfail]
  · intro p ps hp hsig
    simp [stopLoop, hp, hsig]
  · intro p ps hp hsig hw
    simp [stopLoop, hp, hsig, hw]

/-- Witness for C8 (amended) at the concrete aborting fleet. -/
theorem stop_error_propagates_witness :
    ((stop ⟨fun n => n == 2, fun _ => false⟩
        ⟨[⟨"a", 1, none⟩, ⟨"b", 2, none⟩], some ⟨"s", 9, none⟩⟩).2.1 = false ∧
      (stop ⟨fun n => n == 2, fun _ => false⟩
        ⟨[⟨"a", 1, none⟩, ⟨"b", 2, none⟩], some ⟨"s", 9, none⟩⟩).2.2 =
        ⟨[⟨"a", 1, none⟩, ⟨"b", 2, none⟩], some ⟨"s", 9, none⟩⟩) ∧
    stopLoop ⟨fun n => n == 2, fun _ => false⟩ [⟨"b", 2, none⟩, ⟨"a", 1, none⟩] =
      ([], false) ∧
    stopLoop ⟨fun _ => false, fun n => n == 2⟩ [⟨"b", 2, none⟩, ⟨"a", 1, none⟩] =
      ([Ev.sigterm 2], false) := by
  refine ⟨?_, ?_, ?_⟩
  · exact (stop_error_propagates ⟨fun n => n == 2, fun _ => false⟩
      ⟨[⟨"a", 1, none⟩, ⟨"b", 2, none⟩], some ⟨"s", 9, none⟩⟩).1 (by decide)
  · exact (stop_error_propagates ⟨fun n => n == 2, fun _ => false⟩
      ⟨[⟨"a", 1, none⟩, ⟨"b", 2, none⟩], some ⟨"s", 9, none⟩⟩).2.2.1
      ⟨"b", 2, none⟩ [⟨"a", 1, none⟩] rfl rfl
  · exact (stop_error_propagates ⟨fun _ => false, fun n => n == 2⟩
      ⟨[⟨"a", 1, none⟩, ⟨"b", 2, none⟩], some ⟨"s", 9, none⟩⟩).2.2.2
      ⟨"b", 2, none⟩ [⟨"a", 1, none⟩] rfl rfl rfl

/-! ## waitport lemmas -/

theorem waitportGo_le (conn : Nat → ConnectOutcome) (ptc : Option (Nat → Bool)) :
    ∀ (fuel i : Nat), (waitportGo conn ptc fuel i).2 ≤ i + fuel := by
  intro fuel
  induction fuel with
  | zero => intro i; simp [waitportGo]
  | succ fuel ih =>
    intro i
    cases ha : abortNow ptc i
    · cases hc : conn i
      · have := ih (i + 1)
        simp [waitportGo, ha, hc]
        omega
      · simp [waitportGo, ha, hc]
      · simp [waitportGo, ha, hc]
    · simp [waitportGo, ha]

theorem waitportGo_timeout (conn : Nat → ConnectOutcome) (ptc : Option (Nat → Bool)) :
    ∀ (fuel i : Nat),
      (∀ j, i ≤ j → j < i + fuel → abortNow ptc j = false ∧ conn j = .refused) →
      waitportGo conn ptc fuel i = (.timedOut, i + fuel) := by
  intro fuel
  induction fuel with
  | zero => intro i _; simp [waitportGo]
  | succ fuel ih =>
    intro i h
    have h0 := h i (Nat.le_refl i) (by omega)
    rw [show i + (fuel + 1) = (i + 1) + fuel from by omega]
    rw [show waitportGo conn ptc (fuel + 1) i = waitportGo conn ptc fuel (i + 1) from by
      simp [waitportGo, h0.1, h0.2]]
    exact ih (i + 1) (fun j hj1 hj2 => h j (by omega) (by omega))

/-- C5: the `waitport` readiness gate performs at most 1000 attempts,
each preceded by one fixed sleep (time is counted in sleeps, so the
second component is both the attempt count and the elapsed time in
0.1-second units). An always-false abort predicate fails the gate with
`AbortedWait` on the very first tick, strictly before the 1000-tick
timeout bound; on any attempt, a false abort predicate aborts
immediately and without consulting the connect outcome; a refused
connect retries; any other connect error propagates immediately; a
successful connect returns success; and 1000 refused attempts end in
`ReadinessTimeout`. -/
theorem waitport_gate_spec :
    (∀ (conn : Nat → ConnectOutcome) (ptc : Option (Nat → Bool)),
      (waitport conn ptc).2 ≤ 1000) ∧
    (∀ conn, waitport conn (some (fun _ => false)) = (.aborted, 1) ∧ 1 < 1000) ∧
    (∀ (conn conn' : Nat → ConnectOutcome) (f : Nat → Bool) (fuel i : Nat), f i = false →
      waitportGo conn (some f) (fuel + 1) i = (.aborted, i + 1) ∧
      waitportGo conn (some f) (fuel + 1) i = waitportGo conn' (some f) (fuel + 1) i) ∧
    (∀ conn ptc (fuel i : Nat), abortNow ptc i = false → conn i = .refused →
      waitportGo conn ptc (fuel + 1) i = waitportGo conn ptc fuel (i + 1)) ∧
    (∀ conn ptc (fuel i : Nat), abortNow ptc i = false → conn i = .otherError →
      waitportGo conn ptc (fuel + 1) i = (.connectRaise, i + 1)) ∧
    (∀ conn ptc (fuel i : Nat), abortNow ptc i = false → conn i = .success →
      waitportGo conn ptc (fuel + 1) i = (.ok, i + 1)) ∧
    (∀ conn ptc, (∀ j, j < 1000 → abortNow ptc j = false ∧ conn j = .refused) →
      waitport conn ptc = (.timedOut, 1000)) := by
  refine ⟨?_, ?_, ?_, ?_, ?_, ?_, ?_⟩
  · intro conn ptc
    have := waitportGo_le conn ptc 1000 0
    simpa [waitport] using this
  · intro conn
    refine ⟨?_, by omega⟩
    have h : waitport conn (some (fun _ => false)) =
        waitportGo conn (some (fun _ => false)) (999 + 1) 0 := rfl
    rw [h]
    simp [waitportGo, abortNow]
  · intro conn conn' f fuel i hf
    constructor <;> simp [waitportGo, abortNow, hf]
  · intro conn ptc fuel i ha hc
    simp [waitportGo, ha, hc]
  · intro conn ptc fuel i ha hc
    simp [waitportGo, ha, hc]
  · intro conn ptc fuel i ha hc
    simp [waitportGo, ha, hc]
  · intro conn ptc h
    have := waitportGo_timeout conn ptc 1000 0 (fun j hj1 hj2 => h j (by omega))
    simpa [waitport] using this

/-- Witness for C5 at concrete connect oracles. -/
theorem waitport_gate_spec_witness :
    (waitport (fun _ => .refused) none).2 ≤ 1000 ∧
    waitport (fun _ => .refused) (some (fun _ => false)) = (.aborted, 1) ∧
    waitportGo (fun _ => .otherError) none 5 0 = (.connectRaise, 1) ∧
    waitportGo (fun _ => .success) none 5 0 = (.ok, 1) ∧
    waitport (fun _ => .refused) none = (.timedOut, 1000) :=
  ⟨waitport_gate_spec.1 (fun _ => .refused) none,
   (waitport_gate_spec.2.1 (fun _ => .refused)).1,
   waitport_gate_spec.2.2.2.2.1 (fun _ => .otherError) none 4 0 rfl rfl,
   waitport_gate_spec.2.2.2.2.2.1 (fun _ => .success) none 4 0 rfl rfl,
   waitport_gate_spec.2.2.2.2.2.2 (fun _ => .refused) none (fun j hj => ⟨rfl, rfl⟩)⟩

/-! ## start() lemmas -/

theorem startGo_true_iff (out : String → SvcOutcome) (sp : String → Proc) :
    ∀ (l : List Service) (acc : List Proc),
      (startGo out sp l acc).2 = true ↔ ∀ s ∈ l, out s.name = .gateOk := by
  intro l
  induction l with
  | nil => intro acc; simp [startGo]
  | cons s l ih =>
    intro acc
    cases hs : out s.name <;> simp [startGo, hs, ih]

theorem startGo_all_ok (out : String → SvcOutcome) (sp : String → Proc) :
    ∀ (l : List Service) (acc : List Proc), (∀ s ∈ l, out s.name = .gateOk) →
      startGo out sp l acc = (acc ++ l.map (fun s => sp s.name), true) := by
  intro l
  induction l with
  | nil => intro acc _; simp [startGo]
  | cons s l ih =>
    intro acc h
    have hs := h s (List.mem_cons_self s l)
    rw [show startGo out sp (s :: l) acc = startGo out sp l (acc ++ [sp s.name]) from by
      simp [startGo, hs]]
    rw [ih (acc ++ [sp s.name]) (fun t ht => h t (List.mem_cons_of_mem s ht))]
    simp

theorem startGo_first_fail (out : String → SvcOutcome) (sp : String → Proc) :
    ∀ (l : List Service) (acc : List Proc) (s1 : Service), s1 ∈ l →
      out s1.name ≠ .gateOk →
      ∃ pre sf post, l = pre ++ sf :: post ∧
        (∀ t ∈ pre, out t.name = .gateOk) ∧ out sf.name ≠ .gateOk ∧
        (startGo out sp l acc).2 = false ∧
        (out sf.name = .spawnRaise →
          (startGo out sp l acc).1 = acc ++ pre.map (fun t => sp t.name)) ∧
        (out sf.name = .gateRaise →
          (startGo out sp l acc).1 =
            acc ++ pre.map (fun t => sp t.name) ++ [sp sf.name]) ∧
        (out sf.name = .gateFalse →
          (startGo out sp l acc).1 =
            (acc ++ pre.map (fun t => sp t.name) ++ [sp sf.name]).filter
              (fun p => p.poll.isNone)) := by
  intro l
  induction l with
  | nil => intro acc s1 h; cases h
  | cons s l ih =>
    intro acc s1 hs1 hbad
    by_cases hs : out s.name = .gateOk
    · have hs1l : s1 ∈ l := by
        rcases List.mem_cons.1 hs1 with rfl | h
        · exact absurd hs hbad
        · exact h
      obtain ⟨pre, sf, post, hl, hpre, hsf, h2, hsp, hgr, hgf⟩ :=
        ih (acc ++ [sp s.name]) s1 hs1l hbad
      have hstep : startGo out sp (s :: l) acc = startGo out sp l (acc ++ [sp s.name]) := by
        simp [startGo, hs]
      refine ⟨s :: pre, sf, post, by rw [hl]; rfl, ?_, hsf, ?_, ?_, ?_, ?_⟩
      · intro t ht
        rcases List.mem_cons.1 ht with rfl | ht
        · exact hs
        · exact hpre t ht
      · rw [hstep]; exact h2
      · intro hc; rw [hstep, hsp hc]; simp
      · intro hc; rw [hstep, hgr hc]; simp
      · intro hc; rw [hstep, hgf hc]; simp
    · refine ⟨[], s, l, rfl, ?_, hs, ?_, ?_, ?_, ?_⟩
      · intro t ht; cases ht
      · cases hcase : out s.name with
        | gateOk => exact absurd hcase hs
        | spawnRaise => simp [startGo, hcase]
        | gateFalse => simp [startGo, hcase]
        | gateRaise => simp [startGo, hcase]
      · intro hc; simp [startGo, hc]
      · intro hc; simp [startGo, hc]
      · intro hc; simp [startGo, hc, checkSplit_eq]

theorem serviceToposort_ok_perm (svcs ordered : List Service)
    (h : serviceToposort svcs = .ok ordered) : ordered.Perm svcs := by
  unfold serviceToposort at h
  by_cases he : (toposortRun svcs).2.isEmpty = true
  · rw [if_pos he] at h
    have hord : (toposortRun svcs).1 = ordered := Except.ok.inj h
    have hperm := toposortRun_perm svcs
    rw [List.isEmpty_iff.1 he, List.append_nil, hord] at hperm
    exact hperm
  · rw [if_neg he] at h
    cases h

/-- The concrete scenario for C2: two descriptors; `a` starts and gates
OK, then its process dies while `b`'s port gate is waiting, so `b`'s
per-tick `check()` prunes it and fails the gate. -/
def c2out : String → SvcOutcome := fun n => if n = "b" then .gateFalse else .gateOk

/-- C2 scenario spawn table: `Proc.poll` is the status at the failing
tick — `a` has exited with code 1, `b` is still alive. -/
def c2sp : String → Proc := fun n => if n = "a" then ⟨"a", 1, some 1⟩ else ⟨"b", 2, none⟩

/-- C2 scenario descriptor table. -/
def c2svcs : List Service := [⟨"a", []⟩, ⟨"b", ["a"]⟩]

/-- Counterexample to C2 as stated: service `a` is started successfully
before `b`, then crashes during `b`'s port gate; the gate's
`perTickCheck=check` call removes `a`'s dead entry from the global list
and returns `False`, failing the gate. `start()` returns false — but
`a`'s process, started before the failing descriptor, does NOT remain in
the running list. -/
theorem start_prior_process_pruned_cex :
    c2out "a" = .gateOk ∧
    start c2out c2sp ⟨"cs", 9, none⟩ c2svcs ⟨[], none⟩ =
      .ok (false, ⟨[⟨"b", 2, none⟩], some ⟨"cs", 9, none⟩⟩) ∧
    c2sp "a" ∉ ([⟨"b", 2, none⟩] : List Proc) := by
  refine ⟨by decide, by rfl, by decide⟩

/-- C2 (amended): whenever `start()` returns normally, it returns true
iff every descriptor's spawn and readiness gate succeeded, in which case
the running list has gained exactly the scheduler-ordered processes. On
the first failing descriptor (in emitted scheduler order) it returns
false and performs no rollback of its own: after an exception failure
(spawn raise, or raising gate) every previously appended process is
still in the list in order — plus the failing descriptor's own process
when its spawn succeeded; after a falsy port gate, which arises from the
gate's per-tick `check()` pruning the processes found dead, the list is
exactly the still-live entries, in order, of everything appended up to
and including the failing descriptor. -/
theorem start_spec (out : String → SvcOutcome) (sp : String → Proc) (sidecar : Proc)
    (svcs : List Service) (st : FleetState) (b : Bool) (st' : FleetState)
    (h : start out sp sidecar svcs st = .ok (b, st')) :
    (b = true ↔ ∀ s ∈ svcs, out s.name = .gateOk) ∧
    (b = true → serviceToposort svcs = .ok (toposortRun svcs).1 ∧
      st'.processes = st.processes ++ (toposortRun svcs).1.map (fun s => sp s.name)) ∧
    (b = false → ∃ pre sf post, (toposortRun svcs).1 = pre ++ sf :: post ∧
      (∀ t ∈ pre, out t.name = .gateOk) ∧ out sf.name ≠ .gateOk ∧
      (out sf.name = .spawnRaise →
        st'.processes = st.processes ++ pre.map (fun t => sp t.name)) ∧
      (out sf.name = .gateRaise →
        st'.processes = st.processes ++ pre.map (fun t => sp t.name) ++ [sp sf.name]) ∧
      (out sf.name = .gateFalse →
        st'.processes = (st.processes ++ pre.map (fun t => sp t.name) ++
          [sp sf.name]).filter (fun p => p.poll.isNone))) := by
  cases hcs : st.challSrvProcess with
  | some p =>
    exfalso
    simp only [start, startChallSrv, hcs] at h
    exact Except.noConfusion h
  | none =>
    simp only [start, startChallSrv, hcs] at h
    cases hr2 : (startGo out sp (toposortRun svcs).1 st.processes).2 with
    | false =>
      rw [hr2] at h
      simp only [Bool.false_eq_true, if_false, Except.ok.injEq, Prod.mk.injEq] at h
      obtain ⟨hb, hst⟩ := h
      subst hb
      have hstp : st'.processes = (startGo out sp (toposortRun svcs).1 st.processes).1 := by
        rw [← hst]
      refine ⟨?_, ?_, ?_⟩
      · simp only [Bool.false_eq_true, false_iff]
        intro hall
        have hall' : ∀ s ∈ (toposortRun svcs).1, out s.name = .gateOk := fun s hs =>
          hall s ((toposortRun_perm svcs).mem_iff.1 (List.mem_append.2 (Or.inl hs)))
        have := (startGo_true_iff out sp (toposortRun svcs).1 st.processes).2 hall'
        rw [hr2] at this
        cases this
      · intro habs; cases habs
      · intro _
        have hnot : ¬ ∀ s ∈ (toposortRun svcs).1, out s.name = .gateOk := by
          intro hall
          have := (startGo_true_iff out sp (toposortRun svcs).1 st.processes).2 hall
          rw [hr2] at this
          cases this
        push_neg at hnot
        obtain ⟨s1, hs1, hbad⟩ := hnot
        obtain ⟨pre, sf, post, hl, hpre, hsf, _, hsp, hgr, hgf⟩ :=
          startGo_first_fail out sp (toposortRun svcs).1 st.processes s1 hs1 hbad
        refine ⟨pre, sf, post, hl, hpre, hsf, ?_, ?_, ?_⟩
        · intro hc; rw [hstp, hsp hc]
        · intro hc; rw [hstp, hgr hc]
        · intro hc; rw [hstp, hgf hc]
    | true =>
      rw [hr2] at h
      cases hfb : (toposortRun svcs).2.isEmpty with
      | false =>
        rw [hfb] at h
        simp only [Bool.false_eq_true, if_false, if_true] at h
        exact absurd h (fun hx => Except.noConfusion hx)
      | true =>
        rw [hfb] at h
        simp only [if_true, Except.ok.injEq, Prod.mk.injEq] at h
        obtain ⟨hb, hst⟩ := h
        subst hb
        have hstp : st'.processes = (startGo out sp (toposortRun svcs).1 st.processes).1 := by
          rw [← hst]
        have hall : ∀ s ∈ (toposortRun svcs).1, out s.name = .gateOk :=
          (startGo_true_iff out sp (toposortRun svcs).1 st.processes).1 hr2
        have hok : serviceToposort svcs = .ok (toposortRun svcs).1 := by
          simp [serviceToposort, hfb]
        have hperm : ((toposortRun svcs).1).Perm svcs := serviceToposort_ok_perm svcs _ hok
        refine ⟨?_, ?_, ?_⟩
        · constructor
          · intro _ s hs
            exact hall s (hperm.mem_iff.2 hs)
          · intro _; rfl
        · intro _
          refine ⟨hok, ?_⟩
          rw [hstp, startGo_all_ok out sp (toposortRun svcs).1 st.processes hall]
        · intro habs; cases habs

/-- Witness for C2 (amended) at the concrete pruning scenario: applies
the theorem to the run where `a` starts, then is pruned dead during
`b`'s falsy port gate. -/
theorem start_spec_witness :
    ((false : Bool) = true ↔ ∀ s ∈ c2svcs, c2out s.name = SvcOutcome.gateOk) ∧
    (∃ pre sf post, (toposortRun c2svcs).1 = pre ++ sf :: post ∧
      (∀ t ∈ pre, c2out t.name = .gateOk) ∧ c2out sf.name ≠ .gateOk ∧
      (c2out sf.name = .spawnRaise →
        (⟨[⟨"b", 2, none⟩], some ⟨"cs", 9, none⟩⟩ : FleetState).processes =
          (⟨[], none⟩ : FleetState).processes ++ pre.map (fun t => c2sp t.name)) ∧
      (c2out sf.name = .gateRaise →
        (⟨[⟨"b", 2, none⟩], some ⟨"cs", 9, none⟩⟩ : FleetState).processes =
          (⟨[], none⟩ : FleetState).processes ++ pre.map (fun t => c2sp t.name) ++
            [c2sp sf.name]) ∧
      (c2out sf.name = .gateFalse →
        (⟨[⟨"b", 2, none⟩], some ⟨"cs", 9, none⟩⟩ : FleetState).processes =
          ((⟨[], none⟩ : FleetState).processes ++ pre.map (fun t => c2sp t.name) ++
            [c2sp sf.name]).filter (fun p => p.poll.isNone))) :=
  ⟨(start_spec c2out c2sp ⟨"cs", 9, none⟩ c2svcs ⟨[], none⟩ false
      ⟨[⟨"b", 2, none⟩], some ⟨"cs", 9, none⟩⟩ (by rfl)).1,
   (start_spec c2out c2sp ⟨"cs", 9, none⟩ c2svcs ⟨[], none⟩ false
      ⟨[⟨"b", 2, none⟩], some ⟨"cs", 9, none⟩⟩ (by rfl)).2.2 rfl⟩

end StartServers
